import Mathlib

/-!
Verification of the core engine of ocp-doc-checker.

Shallow embedding of `pkg/parser` (ParseOCPDocURL, BuildURL, GetVersionFloat)
and `pkg/checker` (Check, checkURL, checkAnchorInHTML, getNewerVersions).
Strings are modelled as lists of characters; Go's `float64` version key is
modelled by exact rationals (exact on the values the tool handles, where
minor/100 comparisons of small integers agree with IEEE doubles).
-/

set_option maxRecDepth 8000

attribute [local semireducible] Rat.add Rat.mul Rat.inv Rat.sub

/-- Go strings, modelled as their character sequences (ASCII in this domain). -/
abbrev Str := List Char

/-- Go error values; only the message matters to this code. -/
abbrev GoErr := Str

/-- Models strings.Contains(s, pat): pat occurs as a contiguous substring of s. -/
def hasSubstr (s pat : Str) : Bool :=
  match s with
  | [] => pat.isEmpty
  | _ :: t => pat.isPrefixOf s || hasSubstr t pat

/-- Split a string at the first occurrence of character c:
returns the part before c and, when c occurs, the part after it. -/
def splitAtFirstChar (c : Char) : Str → Str × Option Str
  | [] => ([], none)
  | x :: xs =>
    if x == c then ([], some xs)
    else
      let (pre, rest) := splitAtFirstChar c xs
      (x :: pre, rest)

/-- Scheme splitting of net/url.Parse on absolute URLs: the text before the
first colon is the scheme when the colon is followed by two slashes. -/
def splitScheme : Str → Option (Str × Str)
  | [] => none
  | c :: cs =>
    if c == ':' then
      match cs with
      | '/' :: '/' :: rest => some ([], rest)
      | _ => none
    else (splitScheme cs).map (fun p => (c :: p.1, p.2))

/-- Character class [^/] of the format and document captures (also the
host/path boundary test of urlParse). -/
def notSlash (c : Char) : Bool := c != '/'

/-- Character class [^/?#] of the page capture. -/
def pageChar (c : Char) : Bool := !(c == '/' || c == '?' || c == '#')

/-- ASCII control bytes (below space, and DEL).  net/url.Parse rejects a raw
URL containing one of these outright. -/
def ctlChar (c : Char) : Bool := c.toNat < 32 || c.toNat == 127

/-- net/url's ishex: a decimal digit or a letter a-f in either case. -/
def hexDigit (c : Char) : Bool :=
  c.isDigit || ('a' ≤ c && c ≤ 'f') || ('A' ≤ c && c ≤ 'F')

/-- Percent-escape validity as net/url's unescape checks it while decoding a
component: every percent sign must be followed by two hexadecimal digits. -/
def validEscapes : Str → Bool
  | [] => true
  | c :: rest =>
    if c = '%' then
      match rest with
      | a :: b :: rest2 => hexDigit a && hexDigit b && validEscapes rest2
      | _ => false
    else validEscapes rest

/-- The characters net/url's getScheme accepts in a scheme after its first
letter: letters, digits, plus, minus, dot. -/
def schemeCharOK (c : Char) : Bool :=
  c.isAlpha || c.isDigit || c == '+' || c == '-' || c == '.'

/-- net/url's getScheme recognises the text before the first colon as a
scheme only when it is nonempty, starts with a letter and continues with
letters, digits, plus, minus and dots; on any other character it decides the
URL has no scheme (without an error). -/
def validScheme (s : Str) : Bool :=
  match s with
  | [] => false
  | c :: rest => c.isAlpha && rest.all schemeCharOK

/-- net/url's validOptionalPort: empty, or a colon followed by decimal digits
only. -/
def optPortOK (s : Str) : Bool :=
  match s with
  | [] => true
  | c :: ds => c == ':' && ds.all Char.isDigit

/-- net/url parseHost's port validation: a bracketed (IPv6) host must close
its bracket and may be followed by an optional port; otherwise, when the host
contains a colon, everything after the last one must be digits. -/
def hostPortOK (host : Str) : Bool :=
  match host with
  | '[' :: rest =>
    rest.any (fun c => c == ']') &&
      optPortOK ((host.reverse.takeWhile (fun c => c != ']')).reverse)
  | _ =>
    !(host.any (fun c => c == ':')) ||
      (host.reverse.takeWhile (fun c => c != ':')).all Char.isDigit

/-- The components of net/url.Parse's result that ParseOCPDocURL reads. -/
structure GoURL where
  Scheme : Str
  Host : Str
  Path : Str
  Fragment : Str
deriving DecidableEq

/-- The splitting net/url.Parse performs on an accepted URL, for URLs free of
percent-escapes (percent-decoding is the identity there): the fragment is
everything after the first hash mark, the query everything after the first
question mark before it; a colon-terminated prefix passing getScheme's checks
is the scheme (otherwise the URL has no scheme and no host), the host runs
from after the scheme separator to the first slash, the path is the rest.
The inputs Parse rejects instead of splitting are captured by urlParseErr
below. -/
def urlParse (raw : Str) : GoURL :=
  let f := splitAtFirstChar '#' raw
  let fragment := f.2.getD []
  let q := splitAtFirstChar '?' f.1
  match splitScheme q.1 with
  | none => ⟨[], [], q.1, fragment⟩
  | some sr =>
    if validScheme sr.1 then
      let host := sr.2.takeWhile notSlash
      let path := sr.2.dropWhile notSlash
      ⟨sr.1, host, path, fragment⟩
    else ⟨[], [], q.1, fragment⟩

/-- The error cases of net/url.Parse, which ParseOCPDocURL propagates as
"invalid URL: ..." (parser.go lines 25-28): a control byte anywhere in the
raw URL; an invalid percent escape in the components Parse decodes (the part
before the query, and the fragment — the raw query is stored undecoded and
unvalidated); a colon in first position ("missing protocol scheme"); and a
malformed port after the host. -/
def urlParseErr (raw : Str) : Option GoErr :=
  if raw.any ctlChar then
    some ("net/url: invalid control character in URL".toList)
  else if !(validEscapes (splitAtFirstChar '?' (splitAtFirstChar '#' raw).1).1 &&
      validEscapes (((splitAtFirstChar '#' raw).2).getD [])) then
    some ("invalid URL escape".toList)
  else if raw.head? = some ':' then
    some ("missing protocol scheme".toList)
  else if !(hostPortOK (urlParse raw).Host) then
    some ("invalid port ".toList ++ (urlParse raw).Host)
  else none

/-- The literal part of the path pattern in ParseOCPDocURL's regular
expression. -/
def ocpLit : Str := "/documentation/openshift_container_platform/".toList

/-- ocpLit without its first two characters (for prefix-mismatch lemmas). -/
def ocpTail : Str := "ocumentation/openshift_container_platform/".toList

/-- The greedy tail of the regex after the literal:
(\d+\.\d+)/([^/]+)/([^/]+)/([^/?#]+).  Greedy runs followed by a required
one-character delimiter are forced, so RE2's leftmost-first match at a fixed
position is this deterministic computation; captures are
(major digits, minor digits, format, document, page). -/
def matchVersionTail (s : Str) : Option (Str × Str × Str × Str × Str) :=
  let d1 := s.takeWhile Char.isDigit
  match s.dropWhile Char.isDigit with
  | c1 :: r2 =>
    if c1 = '.' ∧ d1 ≠ [] then
      let d2 := r2.takeWhile Char.isDigit
      match r2.dropWhile Char.isDigit with
      | c2 :: r4 =>
        if c2 = '/' ∧ d2 ≠ [] then
          let f := r4.takeWhile notSlash
          match r4.dropWhile notSlash with
          | c3 :: r6 =>
            if c3 = '/' ∧ f ≠ [] then
              let d := r6.takeWhile notSlash
              match r6.dropWhile notSlash with
              | c4 :: r8 =>
                if c4 = '/' ∧ d ≠ [] then
                  let p := r8.takeWhile pageChar
                  if p ≠ [] then some (d1, d2, f, d, p) else none
                else none
              | [] => none
            else none
          | [] => none
        else none
      | [] => none
    else none
  | [] => none

/-- regexp.FindStringSubmatch over the path: try every start position from the
left; a match must begin with the literal, then the greedy tail. -/
def findDocPattern : Str → Option (Str × Str × Str × Str × Str)
  | [] => none
  | c :: cs =>
    match (if ocpLit.isPrefixOf (c :: cs) then matchVersionTail ((c :: cs).drop ocpLit.length) else none) with
    | some caps => some caps
    | none => findDocPattern cs

/-- Value of an all-digit string, as strconv.Atoi returns it: exact, clamped
to the largest int64 on overflow (Atoi's range error is discarded by the
caller, which keeps the clamped value). -/
def atoi (s : Str) : Int :=
  min (s.foldl (fun n c => 10 * n + ((c.toNat : Int) - ('0'.toNat : Int))) 0) (2 ^ 63 - 1)

/-- pkg/parser.OCPDocURL. -/
structure OCPDocURL where
  BaseURL : Str
  Version : Str
  MajorMinor : Int × Int
  Format : Str
  Document : Str
  Page : Str
  Anchor : Str
  OriginalURL : Str
deriving DecidableEq

/-- pkg/parser.ParseOCPDocURL.  A url.Parse error is returned first, wrapped
as "invalid URL: ..." (lines 25-28).  The version capture is digits, a dot,
digits, so splitting it on the dot and Atoi-ing the two halves (as the source
does) is Atoi of each digit run. -/
def ParseOCPDocURL (rawURL : Str) : Except GoErr OCPDocURL :=
  match urlParseErr rawURL with
  | some e => .error ("invalid URL: ".toList ++ e)
  | none =>
  let parsedURL := urlParse rawURL
  if hasSubstr parsedURL.Host ("docs.redhat.com".toList) then
    match findDocPattern parsedURL.Path with
    | some caps =>
      .ok { BaseURL := parsedURL.Scheme ++ "://".toList ++ parsedURL.Host
            Version := caps.1 ++ '.' :: caps.2.1
            MajorMinor := (atoi caps.1, atoi caps.2.1)
            Format := caps.2.2.1
            Document := caps.2.2.2.1
            Page := caps.2.2.2.2
            Anchor := parsedURL.Fragment
            OriginalURL := rawURL }
    | none => .error ("URL does not match expected OCP documentation format".toList)
  else .error ("not a Red Hat documentation URL".toList)

/-- pkg/parser.OCPDocURL.BuildURL. -/
def BuildURL (o : OCPDocURL) (version : Str) : Str :=
  let url := o.BaseURL ++ "/en/documentation/openshift_container_platform/".toList
      ++ version ++ '/' :: o.Format ++ '/' :: o.Document ++ '/' :: o.Page
  if o.Anchor.isEmpty then url else url ++ '#' :: o.Anchor

/-- pkg/parser.OCPDocURL.GetVersionFloat: float64(major) + float64(minor)/100.
float64 arithmetic is modelled by exact rationals; on the version numbers this
tool compares the double computation is faithfully monotone in this rational. -/
def GetVersionFloat (mm : Int × Int) : ℚ :=
  (mm.1 : ℚ) + (mm.2 : ℚ) / 100

/-- pkg/checker.parseVersionInPlace, i.e. fmt.Sscanf(version, "%d.%d"):
each %d discards leading spaces then reads an optional sign and a nonempty
digit run; the literal dot must match exactly; trailing input is ignored. -/
def scanInt (s : Str) : Option (Int × Str) :=
  let s1 := s.dropWhile (fun c => c.isWhitespace)
  let core : Str → Option (Nat × Str) := fun t =>
    let ds := t.takeWhile Char.isDigit
    if ds.isEmpty then none
    else some (ds.foldl (fun n c => 10 * n + (c.toNat - '0'.toNat)) 0, t.dropWhile Char.isDigit)
  match s1 with
  | '-' :: r => (core r).map (fun p => (-(p.1 : Int), p.2))
  | '+' :: r => (core r).map (fun p => ((p.1 : Int), p.2))
  | _ => (core s1).map (fun p => ((p.1 : Int), p.2))

/-- Parse "major.minor" as fmt.Sscanf(v, "%d.%d") does (see scanInt). -/
def parseVersionInPlace (version : Str) : Option (Int × Int) :=
  match scanInt version with
  | none => none
  | some m =>
    match m.2 with
    | '.' :: r2 =>
      match scanInt r2 with
      | none => none
      | some n => some (m.1, n.1)
    | _ => none

/-- The comparison key used by getNewerVersions' sort closure: parse the
version (a parse failure leaves the zero value, as in the source, where the
closure ignores parseVersionInPlace's error) and take GetVersionFloat. -/
def sortKey (v : Str) : ℚ :=
  GetVersionFloat ((parseVersionInPlace v).getD (0, 0))

/-- Insert into a key-sorted list.  sort.Slice with the `<`-by-key comparator
produces some ascending-by-key permutation (it is unstable); this stable
insertion realizes one such permutation. -/
def insertByKey (x : Str) : List Str → List Str
  | [] => [x]
  | y :: ys => if sortKey x ≤ sortKey y then x :: y :: ys else y :: insertByKey x ys

/-- Ascending-by-key sort of the collected newer versions (sort.Slice). -/
def sortByKey : List Str → List Str
  | [] => []
  | x :: xs => insertByKey x (sortByKey xs)

/-- pkg/checker.Checker.getNewerVersions: keep the known versions that parse
and whose key strictly exceeds the current version's key, then sort by key;
an unparseable current version yields the empty list. -/
def getNewerVersions (knownVersions : List Str) (currentVersion : Str) : List Str :=
  match parseVersionInPlace currentVersion with
  | none => []
  | some cur =>
    let currentFloat := GetVersionFloat cur
    sortByKey (knownVersions.filter (fun v =>
      match parseVersionInPlace v with
      | none => false
      | some mm => decide (currentFloat < GetVersionFloat mm)))

/-- golang.org/x/net/html node kinds. -/
inductive NodeType where
  | errorNode
  | textNode
  | documentNode
  | elementNode
  | commentNode
  | doctypeNode
deriving DecidableEq

/-- golang.org/x/net/html.Attribute (Namespace, Key, Val). -/
structure Attribute where
  Namespace : Str
  Key : Str
  Val : Str
deriving DecidableEq

/-- golang.org/x/net/html.Node.  The FirstChild/NextSibling pointer chain is
modelled as the list of children. -/
inductive Node where
  | mk (ntype : NodeType) (data : Str) (attr : List Attribute) (children : List Node)

/-- The node kind (html.Node.Type). -/
def Node.ntype : Node → NodeType
  | .mk t _ _ _ => t

/-- The tag name (html.Node.Data). -/
def Node.data : Node → Str
  | .mk _ d _ _ => d

/-- The attribute list (html.Node.Attr). -/
def Node.attr : Node → List Attribute
  | .mk _ _ a _ => a

/-- The children (FirstChild/NextSibling chain). -/
def Node.children : Node → List Node
  | .mk _ _ _ c => c

/-- The per-node test of checkAnchorInHTML's walker: an element node whose
attribute list has an id attribute equal to the anchor, or, on an a tag,
a name attribute equal to the anchor. -/
def nodeSelfMatches (anchor : Str) (ty : NodeType) (data : Str) (attrs : List Attribute) : Bool :=
  ty == NodeType.elementNode &&
    attrs.any (fun a =>
      (a.Key == "id".toList && a.Val == anchor) ||
      (data == "a".toList && a.Key == "name".toList && a.Val == anchor))

mutual

/-- The recursive closure checkNode of checkAnchorInHTML: the node itself
matches, or some node below it does (the source's early-exit flag only
short-circuits this disjunction). -/
def checkAnchorNode (anchor : Str) : Node → Bool
  | .mk ty data attrs children =>
    nodeSelfMatches anchor ty data attrs || checkAnchorNodes anchor children

/-- checkNode folded over a sibling chain. -/
def checkAnchorNodes (anchor : Str) : List Node → Bool
  | [] => false
  | n :: ns => checkAnchorNode anchor n || checkAnchorNodes anchor ns

end

/-- pkg/checker.Checker.checkAnchorInHTML: html.Parse's outcome on the body is
taken as input (an error for a parse failure, otherwise the node tree). -/
def checkAnchorInHTML (bodyParse : Except GoErr Node) (anchor : Str) : Except GoErr Bool :=
  match bodyParse with
  | .error e => .error ("failed to parse HTML: ".toList ++ e)
  | .ok doc => .ok (checkAnchorNode anchor doc)

/-- Outcome of one HTTP request: a transport error, or a response carrying a
status code and what html.Parse would return on its body. -/
inductive FetchResult where
  | fail (e : GoErr)
  | resp (statusCode : Int) (bodyParse : Except GoErr Node)

/-- The network as checkURL sees it: the results of the HEAD and GET requests
it would issue on each retry attempt (the probed URL is fixed). -/
structure Transport where
  headResult : Nat → FetchResult
  getResult : Nat → FetchResult

/-- The response checkURL works with on one attempt: with an anchor it GETs;
otherwise it HEADs and falls back to GET when HEAD fails transport-side. -/
def attemptFetch (t : Transport) (hasAnchor : Bool) (attempt : Nat) : FetchResult :=
  if hasAnchor then t.getResult attempt
  else
    match t.headResult attempt with
    | .fail _ => t.getResult attempt
    | r => r

/-- The backoff sleep at the head of iteration `attempt`:
time.Sleep(attempt * 2 seconds) when attempt > 0, recorded in time units. -/
def backoffPush (attempt : Nat) (sleeps : List Nat) : List Nat :=
  if attempt > 0 then attempt * 2 :: sleeps else sleeps

/-- checkURL's returned quadruple (pageExists, anchorExists, hasAnchor, err),
plus the effect trace: how many loop iterations ran and which sleeps happened
(in order). -/
structure ProbeOutcome where
  pageExists : Bool
  anchorExists : Bool
  hasAnchor : Bool
  err : Option GoErr
  attempts : Nat
  sleeps : List Nat
deriving DecidableEq

/-- The retry loop of pkg/checker.Checker.checkURL, by remaining attempts:
sleep, fetch, then: transport error records it and retries; status ≥ 400
returns a definitive miss with nil error; status < 200 retries; 2xx/3xx is a
hit — done if no anchor, else scan the parsed body (a parse error records it
and retries).  Exhaustion returns false with the last recorded error. -/
def checkURLAux (t : Transport) (hasAnchor : Bool) (fragment : Str) :
    Nat → Nat → Option GoErr → List Nat → ProbeOutcome
  | 0, attempt, lastErr, sleeps =>
    ⟨false, false, hasAnchor, lastErr, attempt, sleeps.reverse⟩
  | fuel + 1, attempt, lastErr, sleeps =>
    match attemptFetch t hasAnchor attempt with
    | .fail e =>
      checkURLAux t hasAnchor fragment fuel (attempt + 1) (some e) (backoffPush attempt sleeps)
    | .resp status bodyParse =>
      if 400 ≤ status then
        ⟨false, false, hasAnchor, none, attempt + 1, (backoffPush attempt sleeps).reverse⟩
      else if status < 200 || 400 ≤ status then
        checkURLAux t hasAnchor fragment fuel (attempt + 1) lastErr (backoffPush attempt sleeps)
      else if !hasAnchor then
        ⟨true, false, hasAnchor, none, attempt + 1, (backoffPush attempt sleeps).reverse⟩
      else
        match checkAnchorInHTML bodyParse fragment with
        | .error e =>
          checkURLAux t hasAnchor fragment fuel (attempt + 1) (some e) (backoffPush attempt sleeps)
        | .ok anchorExists =>
          ⟨true, anchorExists, hasAnchor, none, attempt + 1, (backoffPush attempt sleeps).reverse⟩

/-- pkg/checker.Checker.checkURL: split the fragment at the first hash mark
(the requests themselves go to the pre-fragment base URL, which the Transport
oracle is already specialized to), then run maxRetries = 3 attempts. -/
def checkURL (t : Transport) (urlString : Str) : ProbeOutcome :=
  let s := splitAtFirstChar '#' urlString
  let fragment := s.2.getD []
  let hasAnchor := !fragment.isEmpty
  checkURLAux t hasAnchor fragment 3 0 none []

/-- The error attempt k of the loop would record, if any: the transport error
(after the HEAD-then-GET fallback), or, on a 2xx/3xx response probed for an
anchor, the HTML parse error.  Other attempts record nothing: a definitive
≥ 400 miss and a < 200 oddity leave lastErr untouched, and a hit returns. -/
def attemptError (t : Transport) (hasAnchor : Bool) (fragment : Str) (k : Nat) : Option GoErr :=
  match attemptFetch t hasAnchor k with
  | .fail e => some e
  | .resp status bodyParse =>
    if 400 ≤ status then none
    else if status < 200 || 400 ≤ status then none
    else if !hasAnchor then none
    else
      match checkAnchorInHTML bodyParse fragment with
      | .error e => some e
      | .ok _ => none

/-- What a probe of one candidate URL reports back to Check: checkURL's
quadruple (pageExists, anchorExists, hasAnchor, err). -/
structure ProbeResp where
  pageExists : Bool
  anchorExists : Bool
  hasAnchor : Bool
  err : Option GoErr
deriving DecidableEq

/-- pkg/checker.VersionCheckResult.  The CheckedAt wall-clock timestamp is not
modelled (no claim mentions it). -/
structure VersionCheckResult where
  Version : Str
  URL : Str
  Exists : Bool
  AnchorExists : Bool
  HasAnchor : Bool
  Error : Option GoErr
deriving DecidableEq

/-- pkg/checker.CheckResult. -/
structure CheckResult where
  OriginalURL : Str
  OriginalVersion : Str
  LatestVersion : Str
  IsOutdated : Bool
  NewerVersions : List VersionCheckResult
  AllResults : List VersionCheckResult
deriving DecidableEq

/-- Check's candidate loop: for the i-th candidate version build the sibling
URL and probe it (`probe i url` abstracts c.checkURL(url), whose network
outcome may differ per call); every result goes to AllResults, and to
NewerVersions exactly when exists && (!hasAnchor || anchorExists). -/
def checkLoop (probe : Nat → Str → ProbeResp) (docURL : OCPDocURL) (i : Nat) :
    List Str → List VersionCheckResult × List VersionCheckResult
  | [] => ([], [])
  | version :: rest =>
    let url := BuildURL docURL version
    let pr := probe i url
    let versionResult : VersionCheckResult :=
      ⟨version, url, pr.pageExists, pr.anchorExists, pr.hasAnchor, pr.err⟩
    let tail := checkLoop probe docURL (i + 1) rest
    (versionResult :: tail.1,
     if pr.pageExists && (!pr.hasAnchor || pr.anchorExists)
     then versionResult :: tail.2
     else tail.2)

/-- pkg/checker.Checker.Check: parse (a failure is fatal), enumerate the newer
candidates, probe each, then derive IsOutdated and LatestVersion (the version
of the last valid newer result, or the original version when none). -/
def Check (probe : Nat → Str → ProbeResp) (knownVersions : List Str) (rawURL : Str) :
    Except GoErr CheckResult :=
  match ParseOCPDocURL rawURL with
  | .error e => .error ("failed to parse URL: ".toList ++ e)
  | .ok docURL =>
    let versionsToCheck := getNewerVersions knownVersions docURL.Version
    let lists := checkLoop probe docURL 0 versionsToCheck
    match lists.2.getLast? with
    | some lastResult =>
      .ok ⟨rawURL, docURL.Version, lastResult.Version, true, lists.2, lists.1⟩
    | none =>
      .ok ⟨rawURL, docURL.Version, docURL.Version, false, lists.2, lists.1⟩

/-- A node n sits somewhere in the tree rooted at t (t itself included). -/
inductive Subnode : Node → Node → Prop where
  | refl (t : Node) : Subnode t t
  | child {n c : Node} {ty data attrs children} (hc : c ∈ children)
      (h : Subnode n c) : Subnode n (Node.mk ty data attrs children)

/-- The claim's anchor-existence property: some element in the tree carries an
id attribute exactly equal to the anchor, or some a element carries a name
attribute exactly equal to it. -/
def AnchorInTree (anchor : Str) (t : Node) : Prop :=
  ∃ n, Subnode n t ∧ n.ntype = NodeType.elementNode ∧
    ∃ a ∈ n.attr,
      (a.Key = "id".toList ∧ a.Val = anchor) ∨
      (n.data = "a".toList ∧ a.Key = "name".toList ∧ a.Val = anchor)

deriving instance DecidableEq for Except

/-- Validity test of a recorded result (pkg/checker.Check line 103). -/
def isValidNewer (r : VersionCheckResult) : Bool :=
  r.Exists && (!r.HasAnchor || r.AnchorExists)

/-- The fragment checkURL extracts: everything after the first hash mark. -/
def fragmentOf (urlString : Str) : Str :=
  (splitAtFirstChar '#' urlString).2.getD []

/-- checkURL's hasAnchor: the extracted fragment is nonempty. -/
def hasAnchorOf (urlString : Str) : Bool :=
  !(fragmentOf urlString).isEmpty

/-- Fixture: a transport whose every request fails at the transport level. -/
def wTransportErr : Transport :=
  ⟨fun _ => .fail ("dial tcp: timeout".toList), fun _ => .fail ("dial tcp: timeout".toList)⟩

/-- Fixture: a transport answering 404 to every request. -/
def wTransport404 : Transport :=
  ⟨fun _ => .resp 404 (.error ("no body".toList)), fun _ => .resp 404 (.error ("no body".toList))⟩

/-- Fixture: a probe oracle whose pages and anchors always exist. -/
def wProbeAll : Nat → Str → ProbeResp := fun _ _ => ⟨true, true, true, none⟩

/-- Fixture: a probe oracle that flips between an existing and a missing page. -/
def wProbeAlt : Nat → Str → ProbeResp := fun i _ => ⟨i % 2 == 0, false, false, none⟩

/-- Fixture known-version list. -/
def wKnown : List Str := ["4.18", "4.19"].map String.toList

/-- Fixture input URL (the spec's scenario-seed shape). -/
def wURL : Str :=
  "https://docs.redhat.com/en/documentation/openshift_container_platform/4.17/html-single/disconnected_environments/index#mirroring-image-set-full".toList

/-- Fixture: the result Check produces on wProbeAll/wKnown/wURL. -/
def wCheckResult : CheckResult :=
  (Check wProbeAll wKnown wURL).toOption.getD ⟨[], [], [], false, [], []⟩

/-- Fixture: the result Check produces on wProbeAlt/wKnown/wURL. -/
def wCheckResultAlt : CheckResult :=
  (Check wProbeAlt wKnown wURL).toOption.getD ⟨[], [], [], false, [], []⟩

theorem checkLoop_snd_eq_filter (probe : Nat → Str → ProbeResp) (docURL : OCPDocURL) :
    ∀ (vs : List Str) (i : Nat),
      (checkLoop probe docURL i vs).2 = (checkLoop probe docURL i vs).1.filter isValidNewer := by
  intro vs
  induction vs with
  | nil => intro i; rfl
  | cons v rest ih =>
    intro i
    simp only [checkLoop, List.filter_cons]
    rw [ih (i + 1)]
    rcases hb : isValidNewer ⟨v, BuildURL docURL v, (probe i (BuildURL docURL v)).pageExists,
        (probe i (BuildURL docURL v)).anchorExists, (probe i (BuildURL docURL v)).hasAnchor,
        (probe i (BuildURL docURL v)).err⟩ with _ | _ <;>
      simp only [isValidNewer] at hb <;> simp [hb]

theorem check_ok_shape (probe : Nat → Str → ProbeResp) (known : List Str) (rawURL : Str)
    (R : CheckResult) (h : Check probe known rawURL = .ok R) :
    ∃ docURL, ParseOCPDocURL rawURL = .ok docURL ∧
      R.OriginalURL = rawURL ∧
      R.OriginalVersion = docURL.Version ∧
      R.AllResults = (checkLoop probe docURL 0 (getNewerVersions known docURL.Version)).1 ∧
      R.NewerVersions = (checkLoop probe docURL 0 (getNewerVersions known docURL.Version)).2 ∧
      ((∃ lastResult,
          (checkLoop probe docURL 0 (getNewerVersions known docURL.Version)).2.getLast? = some lastResult ∧
          R.IsOutdated = true ∧ R.LatestVersion = lastResult.Version) ∨
        ((checkLoop probe docURL 0 (getNewerVersions known docURL.Version)).2.getLast? = none ∧
          R.IsOutdated = false ∧ R.LatestVersion = docURL.Version)) := by
  unfold Check at h
  cases hp : ParseOCPDocURL rawURL with
  | error e => rw [hp] at h; exact absurd h (by simp)
  | ok docURL =>
    rw [hp] at h
    dsimp only at h
    refine ⟨docURL, rfl, ?_⟩
    cases hl : (checkLoop probe docURL 0 (getNewerVersions known docURL.Version)).2.getLast? with
    | some lastResult =>
      rw [hl] at h
      dsimp only at h
      injection h with h'
      subst h'
      exact ⟨rfl, rfl, rfl, rfl, Or.inl ⟨lastResult, rfl, rfl, rfl⟩⟩
    | none =>
      rw [hl] at h
      dsimp only at h
      injection h with h'
      subst h'
      exact ⟨rfl, rfl, rfl, rfl, Or.inr ⟨rfl, rfl, rfl⟩⟩

/-- Claim C1: whenever Check succeeds, IsOutdated holds exactly when
NewerVersions is nonempty, and LatestVersion is the Version of the last
element of NewerVersions when that list is nonempty, and OriginalVersion
otherwise. -/
theorem claim_c1 (probe : Nat → Str → ProbeResp) (known : List Str) (rawURL : Str)
    (R : CheckResult) (h : Check probe known rawURL = .ok R) :
    (R.IsOutdated = true ↔ R.NewerVersions ≠ []) ∧
    (∀ lastResult, R.NewerVersions.getLast? = some lastResult →
      R.LatestVersion = lastResult.Version) ∧
    (R.NewerVersions = [] → R.LatestVersion = R.OriginalVersion) := by
  obtain ⟨docURL, hp, hurl, hver, hall, hnew, hcases⟩ := check_ok_shape probe known rawURL R h
  rcases hcases with ⟨lastResult, hl, hout, hlat⟩ | ⟨hl, hout, hlat⟩
  · refine ⟨⟨fun _ => ?_, fun _ => hout⟩, fun lr hlr => ?_, fun hnil => ?_⟩
    · rw [hnew]
      intro hnil
      rw [hnil] at hl
      exact absurd hl (by simp)
    · rw [hnew] at hlr
      rw [hlr] at hl
      cases hl
      exact hlat
    · rw [hnew] at hnil
      rw [hnil] at hl
      exact absurd hl (by simp)
  · have hnil : R.NewerVersions = [] := by
      rw [hnew]
      exact List.getLast?_eq_none_iff.mp hl
    refine ⟨⟨fun habs => absurd habs (by rw [hout]; simp), fun habs => absurd hnil habs⟩,
      fun lr hlr => ?_, fun _ => by rw [hlat, hver]⟩
    rw [hnil] at hlr
    exact absurd hlr (by simp)

/-- Witness for C1 at a concrete run. -/
theorem claim_c1_witness :
    Check wProbeAll wKnown wURL = .ok wCheckResult ∧
    ((wCheckResult.IsOutdated = true ↔ wCheckResult.NewerVersions ≠ []) ∧
      (∀ lastResult, wCheckResult.NewerVersions.getLast? = some lastResult →
        wCheckResult.LatestVersion = lastResult.Version) ∧
      (wCheckResult.NewerVersions = [] → wCheckResult.LatestVersion = wCheckResult.OriginalVersion)) :=
  ⟨by decide, claim_c1 wProbeAll wKnown wURL wCheckResult (by decide)⟩

/-- Claim C2: in a successful Check, the valid-newer-version list consists of
exactly those recorded probe results with exists && (!hasAnchor ||
anchorExists) — each candidate's result is appended to NewerVersions iff that
condition held for its probe. -/
theorem claim_c2 (probe : Nat → Str → ProbeResp) (known : List Str) (rawURL : Str)
    (R : CheckResult) (h : Check probe known rawURL = .ok R) :
    R.NewerVersions = R.AllResults.filter (fun r => r.Exists && (!r.HasAnchor || r.AnchorExists)) := by
  obtain ⟨docURL, _, _, _, hall, hnew, _⟩ := check_ok_shape probe known rawURL R h
  rw [hall, hnew, checkLoop_snd_eq_filter]
  rfl

/-- Witness for C2 at a concrete run. -/
theorem claim_c2_witness :
    Check wProbeAlt wKnown wURL = .ok wCheckResultAlt ∧
    wCheckResultAlt.NewerVersions =
      wCheckResultAlt.AllResults.filter (fun r => r.Exists && (!r.HasAnchor || r.AnchorExists)) :=
  ⟨by decide, claim_c2 wProbeAlt wKnown wURL wCheckResultAlt (by decide)⟩

/-- Claim C9: in a successful Check, NewerVersions is a subsequence of
AllResults (same elements, same relative order) and every element of
NewerVersions has Exists = true. -/
theorem claim_c9 (probe : Nat → Str → ProbeResp) (known : List Str) (rawURL : Str)
    (R : CheckResult) (h : Check probe known rawURL = .ok R) :
    R.NewerVersions.Sublist R.AllResults ∧
    ∀ r ∈ R.NewerVersions, r.Exists = true := by
  obtain ⟨docURL, _, _, _, hall, hnew, _⟩ := check_ok_shape probe known rawURL R h
  have hfil : R.NewerVersions = R.AllResults.filter isValidNewer := by
    rw [hall, hnew, checkLoop_snd_eq_filter]
  constructor
  · rw [hfil]
    exact List.filter_sublist R.AllResults
  · intro r hr
    rw [hfil] at hr
    have := List.of_mem_filter hr
    simp only [isValidNewer, Bool.and_eq_true] at this
    exact this.1

/-- Witness for C9 at a concrete run. -/
theorem claim_c9_witness :
    Check wProbeAlt wKnown wURL = .ok wCheckResultAlt ∧
    wCheckResultAlt.NewerVersions.Sublist wCheckResultAlt.AllResults ∧
    (∀ r ∈ wCheckResultAlt.NewerVersions, r.Exists = true) :=
  ⟨by decide, claim_c9 wProbeAlt wKnown wURL wCheckResultAlt (by decide)⟩

/-- Claim C10: when the URL parses but the enumerator yields no candidates,
Check probes nothing (its result does not depend on the probe oracle) and
returns IsOutdated = false, LatestVersion = the original version, and empty
NewerVersions and AllResults. -/
theorem claim_c10 (probe probe2 : Nat → Str → ProbeResp) (known : List Str) (rawURL : Str)
    (docURL : OCPDocURL) (hp : ParseOCPDocURL rawURL = .ok docURL)
    (hempty : getNewerVersions known docURL.Version = []) :
    Check probe known rawURL = .ok ⟨rawURL, docURL.Version, docURL.Version, false, [], []⟩ ∧
    Check probe known rawURL = Check probe2 known rawURL := by
  have hone : ∀ pr : Nat → Str → ProbeResp,
      Check pr known rawURL = .ok ⟨rawURL, docURL.Version, docURL.Version, false, [], []⟩ := by
    intro pr
    unfold Check
    rw [hp]
    dsimp only
    rw [hempty]
    rfl
  exact ⟨hone probe, by rw [hone probe, hone probe2]⟩

/-- Witness for C10 at a concrete run: a known list with nothing newer than
the input's 4.17. -/
theorem claim_c10_witness :
    (ParseOCPDocURL wURL).toOption.map (fun d => getNewerVersions (["4.10", "4.17"].map String.toList) d.Version) = some [] ∧
    ∃ docURL, ParseOCPDocURL wURL = .ok docURL ∧
      Check wProbeAll (["4.10", "4.17"].map String.toList) wURL =
        .ok ⟨wURL, docURL.Version, docURL.Version, false, [], []⟩ ∧
      Check wProbeAll (["4.10", "4.17"].map String.toList) wURL =
        Check wProbeAlt (["4.10", "4.17"].map String.toList) wURL := by
  refine ⟨by decide, (ParseOCPDocURL wURL).toOption.getD ⟨[], [], (0, 0), [], [], [], [], []⟩, by decide, ?_⟩
  exact claim_c10 wProbeAll wProbeAlt (["4.10", "4.17"].map String.toList) wURL
    ((ParseOCPDocURL wURL).toOption.getD ⟨[], [], (0, 0), [], [], [], [], []⟩) (by decide) (by decide)

theorem checkURLAux_fail_step (t : Transport) (ha : Bool) (frag : Str) (fuel attempt : Nat)
    (lastErr : Option GoErr) (sleeps : List Nat) (e : GoErr)
    (hfetch : attemptFetch t ha attempt = .fail e) :
    checkURLAux t ha frag (fuel + 1) attempt lastErr sleeps =
      checkURLAux t ha frag fuel (attempt + 1) (some e) (backoffPush attempt sleeps) := by
  simp only [checkURLAux, hfetch]

/-- Claim C6: when an attempt of checkURL's loop receives a response, a status
in [200,400) counts as the page existing (done at once without an anchor,
else the parsed body is scanned), a status ≥ 400 returns immediately with
pageExists false and a nil error, performing no further attempts, and a
status outside both ranges retries. -/
theorem claim_c6 (t : Transport) (ha : Bool) (frag : Str) (fuel attempt : Nat)
    (lastErr : Option GoErr) (sleeps : List Nat) (st : Int) (bp : Except GoErr Node)
    (hfetch : attemptFetch t ha attempt = .resp st bp) :
    (400 ≤ st →
      checkURLAux t ha frag (fuel + 1) attempt lastErr sleeps =
        ⟨false, false, ha, none, attempt + 1, (backoffPush attempt sleeps).reverse⟩) ∧
    (200 ≤ st → st < 400 →
      (ha = false →
        checkURLAux t ha frag (fuel + 1) attempt lastErr sleeps =
          ⟨true, false, ha, none, attempt + 1, (backoffPush attempt sleeps).reverse⟩) ∧
      (∀ docNode, ha = true → bp = .ok docNode →
        checkURLAux t ha frag (fuel + 1) attempt lastErr sleeps =
          ⟨true, checkAnchorNode frag docNode, ha, none, attempt + 1,
            (backoffPush attempt sleeps).reverse⟩)) ∧
    (st < 200 →
      checkURLAux t ha frag (fuel + 1) attempt lastErr sleeps =
        checkURLAux t ha frag fuel (attempt + 1) lastErr (backoffPush attempt sleeps)) := by
  refine ⟨fun h400 => ?_, fun hlo hhi => ⟨fun hha => ?_, fun docNode hha hbp => ?_⟩,
    fun hlow => ?_⟩
  · simp only [checkURLAux, hfetch]
    split_ifs
    rfl
  · subst hha
    simp only [checkURLAux, hfetch]
    split_ifs with h1 h2 h3
    · omega
    · simp only [Bool.or_eq_true, decide_eq_true_eq] at h2
      omega
    · rfl
    · exact absurd rfl h3
  · subst hha
    subst hbp
    simp only [checkURLAux, hfetch]
    split_ifs with h1 h2 h3
    · omega
    · simp only [Bool.or_eq_true, decide_eq_true_eq] at h2
      omega
    · simp at h3
    · simp [checkAnchorInHTML]
  · simp only [checkURLAux, hfetch]
    split_ifs with h1 h2 h3
    · omega
    · rfl
    · simp only [Bool.or_eq_true, decide_eq_true_eq, not_or] at h2
      exact absurd hlow h2.1
    · simp only [Bool.or_eq_true, decide_eq_true_eq, not_or] at h2
      exact absurd hlow h2.1

/-- Witness for C6: a 404 response returns a definitive miss on the first
attempt with no error recorded. -/
theorem claim_c6_witness :
    (400 : Int) ≤ 404 ∧
    checkURLAux wTransport404 false [] (2 + 1) 0 none [] =
      ⟨false, false, false, none, 0 + 1, (backoffPush 0 []).reverse⟩ :=
  ⟨by decide,
    (claim_c6 wTransport404 false [] 2 0 none [] 404 (.error ("no body".toList)) rfl).1 (by decide)⟩

theorem checkURLAux_trace (t : Transport) (ha : Bool) (frag : Str) :
    ∀ (fuel attempt : Nat) (lastErr : Option GoErr) (sleeps : List Nat),
      attempt + fuel = 3 →
      sleeps = ([2, 4].take (attempt - 1)).reverse →
      (checkURLAux t ha frag fuel attempt lastErr sleeps).attempts ≤ 3 ∧
      attempt ≤ (checkURLAux t ha frag fuel attempt lastErr sleeps).attempts ∧
      (checkURLAux t ha frag fuel attempt lastErr sleeps).sleeps =
        [2, 4].take ((checkURLAux t ha frag fuel attempt lastErr sleeps).attempts - 1) := by
  intro fuel
  induction fuel with
  | zero =>
    intro attempt lastErr sleeps h3 hs
    subst hs
    have h0 : attempt = 3 := by omega
    subst h0
    simp [checkURLAux]
  | succ fuel ih =>
    intro attempt lastErr sleeps h3 hs
    subst hs
    have hpush : backoffPush attempt (([2, 4].take (attempt - 1)).reverse) =
        ([2, 4].take attempt).reverse := by
      have ha2 : attempt ≤ 2 := by omega
      interval_cases attempt <;> rfl
    rcases hf : attemptFetch t ha attempt with e | ⟨st, bp⟩
    · rw [checkURLAux_fail_step t ha frag fuel attempt lastErr _ e hf, hpush]
      have hrec := ih (attempt + 1) (some e) (([2, 4].take attempt).reverse) (by omega) (by simp)
      exact ⟨hrec.1, le_trans (Nat.le_succ attempt) hrec.2.1, hrec.2.2⟩
    · simp only [checkURLAux, hf]
      split_ifs with h1 h2 h3
      · refine ⟨by simp; omega, by simp, ?_⟩
        rw [hpush]
        simp
      · rw [hpush]
        have hrec := ih (attempt + 1) lastErr (([2, 4].take attempt).reverse) (by omega) (by simp)
        exact ⟨hrec.1, le_trans (Nat.le_succ attempt) hrec.2.1, hrec.2.2⟩
      · refine ⟨by simp; omega, by simp, ?_⟩
        rw [hpush]
        simp
      · rcases hcp : checkAnchorInHTML bp frag with e2 | ae
        · dsimp only
          rw [hpush]
          have hrec := ih (attempt + 1) (some e2) (([2, 4].take attempt).reverse) (by omega) (by simp)
          exact ⟨hrec.1, le_trans (Nat.le_succ attempt) hrec.2.1, hrec.2.2⟩
        · refine ⟨by simp; omega, by simp, ?_⟩
          rw [hpush]
          simp

theorem checkURLAux_err_step (t : Transport) (ha : Bool) (frag : Str) (fuel attempt : Nat)
    (lastErr : Option GoErr) (sleeps : List Nat) (e : GoErr)
    (he : attemptError t ha frag attempt = some e) :
    checkURLAux t ha frag (fuel + 1) attempt lastErr sleeps =
      checkURLAux t ha frag fuel (attempt + 1) (some e) (backoffPush attempt sleeps) := by
  unfold attemptError at he
  rcases hf : attemptFetch t ha attempt with e2 | ⟨st, bp⟩
  · rw [hf] at he
    dsimp only at he
    injection he with he'
    subst he'
    exact checkURLAux_fail_step t ha frag fuel attempt lastErr sleeps e2 hf
  · rw [hf] at he
    dsimp only at he
    split_ifs at he with h1 h2 h3
    rcases hcp : checkAnchorInHTML bp frag with e3 | ae
    · rw [hcp] at he
      dsimp only at he
      injection he with he'
      subst he'
      simp only [checkURLAux, hf]
      split_ifs
      rw [hcp]
    · rw [hcp] at he
      exact absurd he (by simp)

/-- Claim C7: every probe makes at most 3 attempts, the sleeps performed
before attempts 1 and 2 (0-based) are exactly 2 and 4 time units with none
before attempt 0 — the trace is [2, 4] truncated to the attempts made — and
when every attempt ends in a transport or HTML-parse error, checkURL returns
pageExists = false together with the last recorded error. -/
theorem claim_c7 (t : Transport) (urlString : Str) :
    (checkURL t urlString).attempts ≤ 3 ∧
    (checkURL t urlString).sleeps = [2, 4].take ((checkURL t urlString).attempts - 1) ∧
    ((∀ k, k < 3 → (attemptError t (hasAnchorOf urlString) (fragmentOf urlString) k).isSome = true) →
      (checkURL t urlString).pageExists = false ∧
      (checkURL t urlString).err = attemptError t (hasAnchorOf urlString) (fragmentOf urlString) 2 ∧
      (checkURL t urlString).attempts = 3) := by
  have htr := checkURLAux_trace t (hasAnchorOf urlString) (fragmentOf urlString) 3 0 none []
    rfl rfl
  refine ⟨htr.1, htr.2.2, fun hall => ?_⟩
  obtain ⟨e0, he0⟩ := Option.isSome_iff_exists.mp (hall 0 (by omega))
  obtain ⟨e1, he1⟩ := Option.isSome_iff_exists.mp (hall 1 (by omega))
  obtain ⟨e2, he2⟩ := Option.isSome_iff_exists.mp (hall 2 (by omega))
  have hchain : checkURL t urlString =
      ⟨false, false, hasAnchorOf urlString, some e2, 3, [2, 4]⟩ := by
    calc checkURL t urlString
        = checkURLAux t (hasAnchorOf urlString) (fragmentOf urlString) (2 + 1) 0 none [] := rfl
      _ = checkURLAux t (hasAnchorOf urlString) (fragmentOf urlString) 2 1 (some e0)
            (backoffPush 0 []) :=
          checkURLAux_err_step t (hasAnchorOf urlString) (fragmentOf urlString) 2 0 none [] e0 he0
      _ = checkURLAux t (hasAnchorOf urlString) (fragmentOf urlString) 1 2 (some e1)
            (backoffPush 1 (backoffPush 0 [])) :=
          checkURLAux_err_step t (hasAnchorOf urlString) (fragmentOf urlString) 1 1 (some e0)
            (backoffPush 0 []) e1 he1
      _ = checkURLAux t (hasAnchorOf urlString) (fragmentOf urlString) 0 3 (some e2)
            (backoffPush 2 (backoffPush 1 (backoffPush 0 []))) :=
          checkURLAux_err_step t (hasAnchorOf urlString) (fragmentOf urlString) 0 2 (some e1)
            (backoffPush 1 (backoffPush 0 [])) e2 he2
      _ = ⟨false, false, hasAnchorOf urlString, some e2, 3, [2, 4]⟩ := rfl
  rw [hchain]
  exact ⟨rfl, he2.symm, rfl⟩

/-- Witness for C7: an always-failing transport exhausts the three attempts,
sleeps 2 then 4 units, and reports the last transport error. -/
theorem claim_c7_witness :
    ((checkURL wTransportErr wURL).attempts ≤ 3 ∧
      (checkURL wTransportErr wURL).sleeps =
        [2, 4].take ((checkURL wTransportErr wURL).attempts - 1)) ∧
    (∀ k, k < 3 → (attemptError wTransportErr (hasAnchorOf wURL) (fragmentOf wURL) k).isSome = true) ∧
    ((checkURL wTransportErr wURL).pageExists = false ∧
      (checkURL wTransportErr wURL).err =
        attemptError wTransportErr (hasAnchorOf wURL) (fragmentOf wURL) 2 ∧
      (checkURL wTransportErr wURL).attempts = 3) :=
  ⟨⟨(claim_c7 wTransportErr wURL).1, (claim_c7 wTransportErr wURL).2.1⟩, by decide,
    (claim_c7 wTransportErr wURL).2.2 (by decide)⟩

theorem checkAnchorNodes_eq_any (anchor : Str) :
    ∀ l : List Node, (checkAnchorNodes anchor l = true ↔ ∃ n ∈ l, checkAnchorNode anchor n = true) := by
  intro l
  induction l with
  | nil => simp [checkAnchorNodes]
  | cons n ns ih =>
    simp only [checkAnchorNodes, Bool.or_eq_true, ih, List.mem_cons]
    constructor
    · rintro (h | ⟨m, hm, hc⟩)
      · exact ⟨n, Or.inl rfl, h⟩
      · exact ⟨m, Or.inr hm, hc⟩
    · rintro ⟨m, hm | hm, hc⟩
      · subst hm; exact Or.inl hc
      · exact Or.inr ⟨m, hm, hc⟩

theorem checkAnchorNode_iff_anchorInTree (anchor : Str) :
    ∀ t : Node, (checkAnchorNode anchor t = true ↔ AnchorInTree anchor t) := by
  have H : ∀ k : Nat, ∀ t : Node, sizeOf t ≤ k →
      (checkAnchorNode anchor t = true ↔ AnchorInTree anchor t) := by
    intro k
    induction k with
    | zero =>
      intro t h
      obtain ⟨ty, data, attrs, children⟩ := t
      simp at h
    | succ k ih =>
      intro t hle
      obtain ⟨ty, data, attrs, children⟩ := t
      constructor
      · intro hcheck
        simp only [checkAnchorNode, Bool.or_eq_true] at hcheck
        rcases hcheck with hself | hkids
        · refine ⟨Node.mk ty data attrs children, Subnode.refl _, ?_⟩
          simp only [nodeSelfMatches, Bool.and_eq_true, List.any_eq_true, Bool.or_eq_true,
            beq_iff_eq] at hself
          simp only [Node.ntype, Node.attr, Node.data]
          obtain ⟨hty, a, hmem, hcase⟩ := hself
          refine ⟨hty, a, hmem, ?_⟩
          rcases hcase with ⟨h1, h2⟩ | ⟨⟨h1, h2⟩, hr⟩
          · exact Or.inl ⟨h1, h2⟩
          · exact Or.inr ⟨h1, h2, hr⟩
        · obtain ⟨c, hc, hcheckc⟩ := (checkAnchorNodes_eq_any anchor children).mp hkids
          have hszc : sizeOf c ≤ k := by
            have h1 := List.sizeOf_lt_of_mem hc
            have h2 : sizeOf (Node.mk ty data attrs children) =
                1 + sizeOf ty + sizeOf data + sizeOf attrs + sizeOf children := by
              simp
            omega
          obtain ⟨n, hsub, hprop⟩ := (ih c hszc).mp hcheckc
          exact ⟨n, Subnode.child hc hsub, hprop⟩
      · rintro ⟨n, hsub, hty, a, hmem, hcase⟩
        cases hsub with
        | refl =>
          simp only [Node.ntype, Node.attr, Node.data] at hty hmem hcase
          simp only [checkAnchorNode, Bool.or_eq_true]
          refine Or.inl ?_
          simp only [nodeSelfMatches, Bool.and_eq_true, List.any_eq_true, Bool.or_eq_true,
            beq_iff_eq]
          refine ⟨hty, a, hmem, ?_⟩
          rcases hcase with ⟨h1, h2⟩ | ⟨h1, h2, hr⟩
          · exact Or.inl ⟨h1, h2⟩
          · exact Or.inr ⟨⟨h1, h2⟩, hr⟩
        | child hc hsub' =>
          rename_i c
          have hszc : sizeOf c ≤ k := by
            have h1 := List.sizeOf_lt_of_mem hc
            have h2 : sizeOf (Node.mk ty data attrs children) =
                1 + sizeOf ty + sizeOf data + sizeOf attrs + sizeOf children := by
              simp
            omega
          have hcheckc : checkAnchorNode anchor c = true :=
            (ih c hszc).mpr ⟨n, hsub', hty, a, hmem, hcase⟩
          simp only [checkAnchorNode, Bool.or_eq_true]
          exact Or.inr ((checkAnchorNodes_eq_any anchor children).mpr ⟨c, hc, hcheckc⟩)
  intro t
  exact H (sizeOf t) t le_rfl

/-- Claim C8: on a body whose HTML parse produced a node tree, the anchor scan
reports true exactly when some element in the tree carries an id attribute
equal (exact, case-sensitive string equality) to the anchor, or some a
element carries a name attribute equal to it. -/
theorem claim_c8 (doc : Node) (anchor : Str) :
    checkAnchorInHTML (.ok doc) anchor = .ok true ↔ AnchorInTree anchor doc := by
  have h1 : checkAnchorInHTML (.ok doc) anchor = .ok (checkAnchorNode anchor doc) := rfl
  rw [h1]
  constructor
  · intro h
    injection h with h'
    exact (checkAnchorNode_iff_anchorInTree anchor doc).mp h'
  · intro h
    rw [(checkAnchorNode_iff_anchorInTree anchor doc).mpr h]

theorem insertByKey_perm (x : Str) (l : List Str) : (insertByKey x l).Perm (x :: l) := by
  induction l with
  | nil => exact List.Perm.refl _
  | cons y ys ih =>
    simp only [insertByKey]
    split_ifs with h
    · exact List.Perm.refl _
    · exact (List.Perm.cons y ih).trans (List.Perm.swap x y ys)

theorem sortByKey_perm (l : List Str) : (sortByKey l).Perm l := by
  induction l with
  | nil => exact List.Perm.refl _
  | cons x xs ih => exact (insertByKey_perm x (sortByKey xs)).trans (List.Perm.cons x ih)

theorem insertByKey_sorted (x : Str) (l : List Str)
    (h : l.Pairwise (fun a b => sortKey a ≤ sortKey b)) :
    (insertByKey x l).Pairwise (fun a b => sortKey a ≤ sortKey b) := by
  induction l with
  | nil => simp [insertByKey]
  | cons y ys ih =>
    rcases List.pairwise_cons.mp h with ⟨hy, hys⟩
    simp only [insertByKey]
    split_ifs with hxy
    · refine List.pairwise_cons.mpr ⟨?_, h⟩
      intro b hb
      rcases List.mem_cons.mp hb with rfl | hb2
      · exact hxy
      · exact le_trans hxy (hy b hb2)
    · refine List.pairwise_cons.mpr ⟨?_, ih hys⟩
      intro b hb
      have hmem := (insertByKey_perm x ys).mem_iff.mp hb
      rcases List.mem_cons.mp hmem with rfl | hb2
      · exact le_of_not_le hxy
      · exact hy b hb2

theorem sortByKey_sorted (l : List Str) :
    (sortByKey l).Pairwise (fun a b => sortKey a ≤ sortKey b) := by
  induction l with
  | nil => simp [sortByKey]
  | cons x xs ih => exact insertByKey_sorted x (sortByKey xs) ih

/-- Claim C5, amended: with an unparseable current version the result is
empty; otherwise getNewerVersions returns exactly the known entries that
parse and whose key major + minor/100 strictly exceeds the current key
(entries that fail to parse are skipped), in ascending (non-decreasing) key
order — strictly ascending whenever the kept entries have pairwise distinct
keys (as any duplicate-free list with minors below 100 does). -/
theorem claim_c5 (cur : Str) (known : List Str) :
    (parseVersionInPlace cur = none → getNewerVersions known cur = []) ∧
    (∀ mm, parseVersionInPlace cur = some mm →
      (getNewerVersions known cur).Perm
        (known.filter (fun v =>
          match parseVersionInPlace v with
          | none => false
          | some mv => decide (GetVersionFloat mm < GetVersionFloat mv))) ∧
      (getNewerVersions known cur).Pairwise (fun a b => sortKey a ≤ sortKey b) ∧
      ((known.filter (fun v =>
          match parseVersionInPlace v with
          | none => false
          | some mv => decide (GetVersionFloat mm < GetVersionFloat mv))).Pairwise
            (fun a b => sortKey a ≠ sortKey b) →
        (getNewerVersions known cur).Pairwise (fun a b => sortKey a < sortKey b))) := by
  constructor
  · intro hnone
    simp [getNewerVersions, hnone]
  · intro mm hcur
    have hunfold : getNewerVersions known cur =
        sortByKey (known.filter (fun v =>
          match parseVersionInPlace v with
          | none => false
          | some mv => decide (GetVersionFloat mm < GetVersionFloat mv))) := by
      simp [getNewerVersions, hcur]
    rw [hunfold]
    refine ⟨sortByKey_perm _, sortByKey_sorted _, fun hdist => ?_⟩
    have hne := ((sortByKey_perm _).pairwise_iff
      (fun {x y} h he => h he.symm)).mpr hdist
    exact ((sortByKey_sorted _).and hne).imp (fun hab => lt_of_le_of_ne hab.1 hab.2)

/-- The claim C5 as frozen is false: with known versions 5.0 and 4.100 (keys
both equal to 5) newer than current 4.17, the returned sequence is not
strictly ascending by key — the two keys tie, which the float comparator
cannot separate. -/
theorem claim_c5_counterexample :
    getNewerVersions (["5.0", "4.100"].map String.toList) ("4.17".toList) =
      (["5.0", "4.100"].map String.toList) ∧
    sortKey ("5.0".toList) = sortKey ("4.100".toList) ∧
    ¬ (getNewerVersions (["5.0", "4.100"].map String.toList) ("4.17".toList)).Pairwise
        (fun a b => sortKey a < sortKey b) := by
  refine ⟨by decide, by decide, fun hp => ?_⟩
  have h := List.pairwise_cons.mp (by
    have he : getNewerVersions (["5.0", "4.100"].map String.toList) ("4.17".toList) =
        (["5.0", "4.100"].map String.toList) := by decide
    rw [he] at hp
    exact hp)
  have hlt := h.1 ("4.100".toList) (by simp)
  have heq : sortKey ("5.0".toList) = sortKey ("4.100".toList) := by decide
  rw [heq] at hlt
  exact lt_irrefl _ hlt

/-- Witness for the amended C5 at a concrete run. -/
theorem claim_c5_witness :
    parseVersionInPlace ("4.17".toList) = some (4, 17) ∧
    (getNewerVersions (["4.19", "bad", "4.18"].map String.toList) ("4.17".toList)).Perm
      ((["4.19", "bad", "4.18"].map String.toList).filter (fun v =>
        match parseVersionInPlace v with
        | none => false
        | some mv => decide (GetVersionFloat (4, 17) < GetVersionFloat mv))) ∧
    (getNewerVersions (["4.19", "bad", "4.18"].map String.toList) ("4.17".toList)).Pairwise
      (fun a b => sortKey a ≤ sortKey b) ∧
    ((["4.19", "bad", "4.18"].map String.toList).filter (fun v =>
        match parseVersionInPlace v with
        | none => false
        | some mv => decide (GetVersionFloat (4, 17) < GetVersionFloat mv))).Pairwise
      (fun a b => sortKey a ≠ sortKey b) ∧
    (getNewerVersions (["4.19", "bad", "4.18"].map String.toList) ("4.17".toList)).Pairwise
      (fun a b => sortKey a < sortKey b) := by
  have h := (claim_c5 ("4.17".toList) (["4.19", "bad", "4.18"].map String.toList)).2
    (4, 17) (by decide)
  exact ⟨by decide, h.1, h.2.1, by decide, h.2.2 (by decide)⟩

theorem takeWhile_append_stop (q : Char → Bool) (a : Str) (c : Char) (b : Str)
    (ha : ∀ x ∈ a, q x = true) (hc : q c = false) :
    (a ++ c :: b).takeWhile q = a ∧ (a ++ c :: b).dropWhile q = c :: b := by
  induction a with
  | nil => simp [List.takeWhile_cons, List.dropWhile_cons, hc]
  | cons x xs ih =>
    have hx : q x = true := ha x (List.mem_cons_self _ _)
    have hxs : ∀ y ∈ xs, q y = true := fun y hy => ha y (List.mem_cons_of_mem _ hy)
    obtain ⟨h1, h2⟩ := ih hxs
    simp [List.takeWhile_cons, List.dropWhile_cons, hx, h1, h2]

theorem takeWhile_all_eq (q : Char → Bool) (a : Str) (h : ∀ x ∈ a, q x = true) :
    a.takeWhile q = a ∧ a.dropWhile q = [] := by
  induction a with
  | nil => simp
  | cons x xs ih =>
    have hx : q x = true := h x (List.mem_cons_self _ _)
    have hxs : ∀ y ∈ xs, q y = true := fun y hy => h y (List.mem_cons_of_mem _ hy)
    obtain ⟨h1, h2⟩ := ih hxs
    simp [List.takeWhile_cons, List.dropWhile_cons, hx, h1, h2]

theorem takeWhile_append_all (q : Char → Bool) (a b : Str) (h : ∀ x ∈ a, q x = true) :
    (a ++ b).takeWhile q = a ++ b.takeWhile q ∧ (a ++ b).dropWhile q = b.dropWhile q := by
  induction a with
  | nil => simp
  | cons x xs ih =>
    have hx : q x = true := h x (List.mem_cons_self _ _)
    have hxs : ∀ y ∈ xs, q y = true := fun y hy => h y (List.mem_cons_of_mem _ hy)
    obtain ⟨h1, h2⟩ := ih hxs
    simp [List.takeWhile_cons, List.dropWhile_cons, hx, h1, h2]

theorem splitAtFirstChar_no_occ (c : Char) (a : Str) (h : ∀ x ∈ a, x ≠ c) :
    splitAtFirstChar c a = (a, none) := by
  induction a with
  | nil => rfl
  | cons x xs ih =>
    have hx : (x == c) = false := beq_eq_false_iff_ne.mpr (h x (List.mem_cons_self _ _))
    have hxs : ∀ y ∈ xs, y ≠ c := fun y hy => h y (List.mem_cons_of_mem _ hy)
    simp [splitAtFirstChar, hx, ih hxs]

theorem splitAtFirstChar_first (c : Char) (a b : Str) (h : ∀ x ∈ a, x ≠ c) :
    splitAtFirstChar c (a ++ c :: b) = (a, some b) := by
  induction a with
  | nil => simp [splitAtFirstChar]
  | cons x xs ih =>
    have hx : (x == c) = false := beq_eq_false_iff_ne.mpr (h x (List.mem_cons_self _ _))
    have hxs : ∀ y ∈ xs, y ≠ c := fun y hy => h y (List.mem_cons_of_mem _ hy)
    simp [splitAtFirstChar, hx, ih hxs]

theorem splitScheme_first (s r : Str) (h : ∀ x ∈ s, x ≠ ':') :
    splitScheme (s ++ ':' :: '/' :: '/' :: r) = some (s, r) := by
  induction s with
  | nil => rfl
  | cons x xs ih =>
    have hx : (x == ':') = false := beq_eq_false_iff_ne.mpr (h x (List.mem_cons_self _ _))
    have hxs : ∀ y ∈ xs, y ≠ ':' := fun y hy => h y (List.mem_cons_of_mem _ hy)
    simp [splitScheme, hx, ih hxs]

theorem isEmpty_false_of_ne_nil (l : Str) (h : l ≠ []) : l.isEmpty = false :=
  List.isEmpty_eq_false.mpr h

theorem isEmpty_append_left (a b : Str) (h : a ≠ []) : (a ++ b).isEmpty = false := by
  cases a with
  | nil => exact absurd rfl h
  | cons x xs => rfl

theorem matchVersionTail_parts (d1 d2 f d p suf : Str)
    (hd1 : d1 ≠ []) (hd1d : ∀ c ∈ d1, c.isDigit = true)
    (hd2 : d2 ≠ []) (hd2d : ∀ c ∈ d2, c.isDigit = true)
    (hf : f ≠ []) (hfs : ∀ c ∈ f, notSlash c = true)
    (hd : d ≠ []) (hds : ∀ c ∈ d, notSlash c = true)
    (hp : p ≠ []) (hps : ∀ c ∈ p, pageChar c = true) :
    matchVersionTail (d1 ++ '.' :: (d2 ++ '/' :: (f ++ '/' :: (d ++ '/' :: (p ++ suf))))) =
      some (d1, d2, f, d, p ++ suf.takeWhile pageChar) := by
  obtain ⟨ht1, hr1⟩ := takeWhile_append_stop Char.isDigit d1 '.'
    (d2 ++ '/' :: (f ++ '/' :: (d ++ '/' :: (p ++ suf)))) hd1d (by decide)
  obtain ⟨ht2, hr2⟩ := takeWhile_append_stop Char.isDigit d2 '/'
    (f ++ '/' :: (d ++ '/' :: (p ++ suf))) hd2d (by decide)
  obtain ⟨ht3, hr3⟩ := takeWhile_append_stop notSlash f '/'
    (d ++ '/' :: (p ++ suf)) hfs (by decide)
  obtain ⟨ht4, hr4⟩ := takeWhile_append_stop notSlash d '/' (p ++ suf) hds (by decide)
  obtain ⟨ht5, _⟩ := takeWhile_append_all pageChar p suf hps
  have hplast : p ++ suf.takeWhile pageChar ≠ [] :=
    fun hcon => hp (List.append_eq_nil.mp hcon).1
  simp only [matchVersionTail, ht1, hr1, ht2, hr2, ht3, hr3, ht4, hr4, ht5]
  rw [if_pos ⟨True.intro, hd1⟩, if_pos ⟨True.intro, hd2⟩, if_pos ⟨True.intro, hf⟩,
    if_pos ⟨True.intro, hd⟩, if_pos hplast]

theorem isPrefixOf_self_append (a b : Str) : a.isPrefixOf (a ++ b) = true :=
  List.isPrefixOf_iff_prefix.mpr (List.prefix_append a b)

theorem ocpLit_cons : ocpLit = '/' :: 'd' :: ocpTail := by decide

theorem findDocPattern_cons_of_not (c : Char) (cs : Str)
    (h : ocpLit.isPrefixOf (c :: cs) = false) :
    findDocPattern (c :: cs) = findDocPattern cs := by
  simp only [findDocPattern, h]
  simp

theorem findDocPattern_here (tail : Str) (caps : Str × Str × Str × Str × Str)
    (h : matchVersionTail tail = some caps) :
    findDocPattern (ocpLit ++ tail) = some caps := by
  have hcons : ocpLit ++ tail = '/' :: ('d' :: (ocpTail ++ tail)) := by
    rw [ocpLit_cons]
    rfl
  have hpre : ocpLit.isPrefixOf ('/' :: ('d' :: (ocpTail ++ tail))) = true := by
    rw [← hcons]
    exact isPrefixOf_self_append ocpLit tail
  have hdrop : ('/' :: ('d' :: (ocpTail ++ tail))).drop ocpLit.length = tail := by
    rw [← hcons]
    exact List.drop_left ocpLit tail
  rw [hcons]
  conv_lhs => rw [findDocPattern.eq_def]
  simp only [hpre, hdrop, h]
  simp

theorem sep_chars : "://".toList = [':', '/', '/'] := by decide

theorem enLit_cons : "/en/documentation/openshift_container_platform/".toList =
    '/' :: 'e' :: 'n' :: ocpLit := by decide

theorem ocpLit_not_prefix_e (r : Str) : ocpLit.isPrefixOf ('e' :: r) = false := by
  rw [ocpLit_cons]
  simp [List.isPrefixOf]

theorem ocpLit_not_prefix_n (r : Str) : ocpLit.isPrefixOf ('n' :: r) = false := by
  rw [ocpLit_cons]
  simp [List.isPrefixOf]

theorem ocpLit_not_prefix_sl_e (r : Str) : ocpLit.isPrefixOf ('/' :: 'e' :: r) = false := by
  rw [ocpLit_cons]
  simp [List.isPrefixOf]

theorem digit_ne_special (c : Char) (h : c.isDigit = true) :
    c ≠ ':' ∧ c ≠ '/' ∧ c ≠ '#' ∧ c ≠ '?' := by
  refine ⟨?_, ?_, ?_, ?_⟩ <;> rintro rfl <;> exact absurd h (by decide)

theorem digit_pageChar (c : Char) (h : c.isDigit = true) : pageChar c = true := by
  obtain ⟨-, h2, h3, h4⟩ := digit_ne_special c h
  simp [pageChar, h2, h3, h4]

theorem ocpLit_expand : ocpLit = '/' :: 'd' :: 'o' :: 'c' :: 'u' :: 'm' :: 'e' :: 'n' :: 't' :: 'a' :: 't' :: 'i' :: 'o' :: 'n' :: '/' :: 'o' :: 'p' :: 'e' :: 'n' :: 's' :: 'h' :: 'i' :: 'f' :: 't' :: '_' :: 'c' :: 'o' :: 'n' :: 't' :: 'a' :: 'i' :: 'n' :: 'e' :: 'r' :: '_' :: 'p' :: 'l' :: 'a' :: 't' :: 'f' :: 'o' :: 'r' :: 'm' :: '/' :: [] := by decide

theorem notSlash_of_ne (c : Char) (h : c ≠ '/') : notSlash c = true := by
  simp [notSlash, h]

theorem pageChar_of_ne (c : Char) (h1 : c ≠ '/') (h2 : c ≠ '#') (h3 : c ≠ '?') :
    pageChar c = true := by
  simp [pageChar, h1, h2, h3]

theorem ctl_of_digit (c : Char) (h : c.isDigit = true) : ctlChar c = false := by
  simp only [Char.isDigit, Bool.and_eq_true, decide_eq_true_eq] at h
  have h1 : ('0' : Char).toNat ≤ c.toNat := h.1
  have h2 : c.toNat ≤ ('9' : Char).toNat := h.2
  have h0 : ('0' : Char).toNat = 48 := by decide
  have h9 : ('9' : Char).toNat = 57 := by decide
  simp only [ctlChar, Bool.or_eq_false_iff, decide_eq_false_iff_not, not_lt,
    beq_eq_false_iff_ne, ne_eq]
  omega

theorem digit_good (c : Char) (h : c.isDigit = true) : c ≠ '%' ∧ ctlChar c = false :=
  ⟨by rintro rfl; exact absurd h (by decide), ctl_of_digit c h⟩

theorem good_of_alpha (c : Char) (h : c.isAlpha = true) : c ≠ '%' ∧ ctlChar c = false := by
  simp only [Char.isAlpha, Char.isUpper, Char.isLower, Bool.or_eq_true, Bool.and_eq_true,
    decide_eq_true_eq] at h
  have hA : ('A' : Char).toNat = 65 := by decide
  have hZ : ('Z' : Char).toNat = 90 := by decide
  have ha : ('a' : Char).toNat = 97 := by decide
  have hz : ('z' : Char).toNat = 122 := by decide
  constructor
  · intro hc
    subst hc
    revert h
    decide
  · simp only [ctlChar, Bool.or_eq_false_iff, decide_eq_false_iff_not, not_lt,
      beq_eq_false_iff_ne, ne_eq]
    rcases h with ⟨hl, hr⟩ | ⟨hl, hr⟩
    · have hl' : (65 : Nat) ≤ c.toNat := hA ▸ hl
      have hr' : c.toNat ≤ 90 := hZ ▸ hr
      omega
    · have hl' : (97 : Nat) ≤ c.toNat := ha ▸ hl
      have hr' : c.toNat ≤ 122 := hz ▸ hr
      omega

theorem good_of_schemeCharOK (c : Char) (h : schemeCharOK c = true) :
    c ≠ '%' ∧ ctlChar c = false := by
  simp only [schemeCharOK, Bool.or_eq_true, beq_iff_eq] at h
  rcases h with (((ha | hd) | hp) | hm) | hdot
  · exact good_of_alpha c ha
  · exact digit_good c hd
  · subst hp; exact ⟨by decide, by decide⟩
  · subst hm; exact ⟨by decide, by decide⟩
  · subst hdot; exact ⟨by decide, by decide⟩

theorem scheme_chars_good (s : Str) (h : validScheme s = true) :
    ∀ c ∈ s, c ≠ '%' ∧ ctlChar c = false := by
  cases s with
  | nil => exact absurd h (by decide)
  | cons c rest =>
    simp only [validScheme, Bool.and_eq_true] at h
    intro x hx
    rcases List.mem_cons.mp hx with rfl | hx'
    · exact good_of_alpha x h.1
    · exact good_of_schemeCharOK x (List.all_eq_true.mp h.2 x hx')

theorem scheme_head_ne_colon (s : Str) (h : validScheme s = true) :
    ∃ c cs, s = c :: cs ∧ c ≠ ':' := by
  cases s with
  | nil => exact absurd h (by decide)
  | cons c cs =>
    refine ⟨c, cs, rfl, ?_⟩
    simp only [validScheme, Bool.and_eq_true] at h
    rintro rfl
    exact absurd h.1 (by decide)

theorem validEscapes_of_no_pct (s : Str) (h : ∀ c ∈ s, c ≠ '%') :
    validEscapes s = true := by
  induction s with
  | nil => rfl
  | cons c rest ih =>
    have hc : c ≠ '%' := h c (List.mem_cons_self c rest)
    rw [validEscapes.eq_def]
    dsimp only
    rw [if_neg hc]
    exact ih (fun x hx => h x (List.mem_cons_of_mem c hx))

theorem any_ctl_false (s : Str) (h : ∀ c ∈ s, ctlChar c = false) :
    s.any ctlChar = false := by
  simp only [List.any_eq_false]
  intro x hx
  simp [h x hx]

theorem urlParse_shape (scheme host rest frag : Str)
    (hs : ∀ c ∈ scheme, c ≠ ':' ∧ c ≠ '/' ∧ c ≠ '#' ∧ c ≠ '?')
    (hh : ∀ c ∈ host, c ≠ '/' ∧ c ≠ '#' ∧ c ≠ '?')
    (hrest : ∀ c ∈ rest, c ≠ '#' ∧ c ≠ '?')
    (hvs : validScheme scheme = true) :
    urlParse (scheme ++ ':' :: '/' :: '/' :: (host ++ '/' :: rest)) =
      ⟨scheme, host, '/' :: rest, []⟩ ∧
    urlParse ((scheme ++ ':' :: '/' :: '/' :: (host ++ '/' :: rest)) ++ '#' :: frag) =
      ⟨scheme, host, '/' :: rest, frag⟩ := by
  have hnohash : ∀ c ∈ scheme ++ ':' :: '/' :: '/' :: (host ++ '/' :: rest), c ≠ '#' := by
    refine List.forall_mem_append.mpr ⟨fun c hc => (hs c hc).2.2.1, ?_⟩
    refine List.forall_mem_cons.mpr ⟨by decide, ?_⟩
    refine List.forall_mem_cons.mpr ⟨by decide, ?_⟩
    refine List.forall_mem_cons.mpr ⟨by decide, ?_⟩
    refine List.forall_mem_append.mpr ⟨fun c hc => (hh c hc).2.1, ?_⟩
    exact List.forall_mem_cons.mpr ⟨by decide, fun c hc => (hrest c hc).1⟩
  have hnoq : ∀ c ∈ scheme ++ ':' :: '/' :: '/' :: (host ++ '/' :: rest), c ≠ '?' := by
    refine List.forall_mem_append.mpr ⟨fun c hc => (hs c hc).2.2.2, ?_⟩
    refine List.forall_mem_cons.mpr ⟨by decide, ?_⟩
    refine List.forall_mem_cons.mpr ⟨by decide, ?_⟩
    refine List.forall_mem_cons.mpr ⟨by decide, ?_⟩
    refine List.forall_mem_append.mpr ⟨fun c hc => (hh c hc).2.2, ?_⟩
    exact List.forall_mem_cons.mpr ⟨by decide, fun c hc => (hrest c hc).2⟩
  obtain ⟨hth, hdh⟩ := takeWhile_append_stop notSlash host '/' rest
    (fun c hc => notSlash_of_ne c (hh c hc).1) (by decide)
  have hscheme : splitScheme (scheme ++ ':' :: '/' :: '/' :: (host ++ '/' :: rest)) =
      some (scheme, host ++ '/' :: rest) :=
    splitScheme_first scheme (host ++ '/' :: rest) (fun c hc => (hs c hc).1)
  constructor
  · simp only [urlParse, splitAtFirstChar_no_occ '#' _ hnohash,
      splitAtFirstChar_no_occ '?' _ hnoq, hscheme, hvs, if_true, hth, hdh]
    rfl
  · simp only [urlParse, splitAtFirstChar_first '#' _ frag hnohash]
    simp only [splitAtFirstChar_no_occ '?' _ hnoq, hscheme, hvs, if_true, hth, hdh]
    rfl

theorem urlParseErr_eq_none (raw : Str)
    (h1 : raw.any ctlChar = false)
    (h2 : validEscapes (splitAtFirstChar '?' (splitAtFirstChar '#' raw).1).1 = true)
    (h3 : validEscapes (((splitAtFirstChar '#' raw).2).getD []) = true)
    (h4 : ¬ raw.head? = some ':')
    (h5 : hostPortOK (urlParse raw).Host = true) :
    urlParseErr raw = none := by
  unfold urlParseErr
  rw [if_neg (by simp [h1]), if_neg (by simp [h2, h3]), if_neg h4, if_neg (by simp [h5])]

theorem urlParseErr_none (scheme host rest frag : Str)
    (hs : ∀ c ∈ scheme, c ≠ ':' ∧ c ≠ '/' ∧ c ≠ '#' ∧ c ≠ '?')
    (hh : ∀ c ∈ host, c ≠ '/' ∧ c ≠ '#' ∧ c ≠ '?')
    (hrest : ∀ c ∈ rest, c ≠ '#' ∧ c ≠ '?')
    (hvs : validScheme scheme = true)
    (hport : hostPortOK host = true)
    (hgood : ∀ c ∈ scheme ++ ':' :: '/' :: '/' :: (host ++ '/' :: rest),
      c ≠ '%' ∧ ctlChar c = false)
    (hfg : ∀ c ∈ frag, c ≠ '%' ∧ ctlChar c = false) :
    urlParseErr (scheme ++ ':' :: '/' :: '/' :: (host ++ '/' :: rest)) = none ∧
    urlParseErr ((scheme ++ ':' :: '/' :: '/' :: (host ++ '/' :: rest)) ++ '#' :: frag) =
      none := by
  have hnohash : ∀ c ∈ scheme ++ ':' :: '/' :: '/' :: (host ++ '/' :: rest), c ≠ '#' := by
    refine List.forall_mem_append.mpr ⟨fun c hc => (hs c hc).2.2.1, ?_⟩
    refine List.forall_mem_cons.mpr ⟨by decide, ?_⟩
    refine List.forall_mem_cons.mpr ⟨by decide, ?_⟩
    refine List.forall_mem_cons.mpr ⟨by decide, ?_⟩
    refine List.forall_mem_append.mpr ⟨fun c hc => (hh c hc).2.1, ?_⟩
    exact List.forall_mem_cons.mpr ⟨by decide, fun c hc => (hrest c hc).1⟩
  have hnoq : ∀ c ∈ scheme ++ ':' :: '/' :: '/' :: (host ++ '/' :: rest), c ≠ '?' := by
    refine List.forall_mem_append.mpr ⟨fun c hc => (hs c hc).2.2.2, ?_⟩
    refine List.forall_mem_cons.mpr ⟨by decide, ?_⟩
    refine List.forall_mem_cons.mpr ⟨by decide, ?_⟩
    refine List.forall_mem_cons.mpr ⟨by decide, ?_⟩
    refine List.forall_mem_append.mpr ⟨fun c hc => (hh c hc).2.2, ?_⟩
    exact List.forall_mem_cons.mpr ⟨by decide, fun c hc => (hrest c hc).2⟩
  obtain ⟨hup1, hup2⟩ := urlParse_shape scheme host rest frag hs hh hrest hvs
  obtain ⟨c0, cs0, hsch, hc0⟩ := scheme_head_ne_colon scheme hvs
  have hctl1 : (scheme ++ ':' :: '/' :: '/' :: (host ++ '/' :: rest)).any ctlChar = false :=
    any_ctl_false _ (fun c hc => (hgood c hc).2)
  have hctl2 : ((scheme ++ ':' :: '/' :: '/' :: (host ++ '/' :: rest)) ++ '#' :: frag).any
      ctlChar = false := by
    apply any_ctl_false
    refine List.forall_mem_append.mpr ⟨fun c hc => (hgood c hc).2, ?_⟩
    exact List.forall_mem_cons.mpr ⟨by decide, fun c hc => (hfg c hc).2⟩
  have hesc1 : validEscapes (scheme ++ ':' :: '/' :: '/' :: (host ++ '/' :: rest)) = true :=
    validEscapes_of_no_pct _ (fun c hc => (hgood c hc).1)
  have hescf : validEscapes frag = true := validEscapes_of_no_pct _ (fun c hc => (hfg c hc).1)
  have hhead1 : (scheme ++ ':' :: '/' :: '/' :: (host ++ '/' :: rest)).head? = some c0 := by
    rw [hsch]
    rfl
  have hhead2 : ((scheme ++ ':' :: '/' :: '/' :: (host ++ '/' :: rest)) ++ '#' :: frag).head? =
      some c0 := by
    rw [hsch]
    rfl
  constructor
  · refine urlParseErr_eq_none _ hctl1 ?_ ?_ ?_ ?_
    · simp only [splitAtFirstChar_no_occ '#' _ hnohash, splitAtFirstChar_no_occ '?' _ hnoq]
      exact hesc1
    · simp only [splitAtFirstChar_no_occ '#' _ hnohash]
      rfl
    · rw [hhead1]
      simp only [Option.some.injEq]
      exact hc0
    · rw [hup1]
      exact hport
  · refine urlParseErr_eq_none _ hctl2 ?_ ?_ ?_ ?_
    · simp only [splitAtFirstChar_first '#' _ frag hnohash,
        splitAtFirstChar_no_occ '?' _ hnoq]
      exact hesc1
    · simp only [splitAtFirstChar_first '#' _ frag hnohash, Option.getD_some]
      exact hescf
    · rw [hhead2]
      simp only [Option.some.injEq]
      exact hc0
    · rw [hup2]
      exact hport

/-- Claim C3: for a well-formed reference (scheme/host base URL on the
documentation domain, nonempty slash-free segments without hash or question
mark) and any major.minor version string, re-parsing BuildURL's output
succeeds and returns the requested version with BaseURL, Format, Document,
Page and Anchor unchanged.  Well-formedness includes what net/url.Parse
demands of the built URL: a getScheme-valid scheme, a valid port, and no
percent signs or control bytes in the components. -/
theorem claim_c3 (scheme host fmtSeg docSeg pageSeg anchor ver : Str)
    (mm : Int × Int) (orig : Str) (e1 e2 : Str)
    (hs : ∀ c ∈ scheme, c ≠ ':' ∧ c ≠ '/' ∧ c ≠ '#' ∧ c ≠ '?')
    (hhdom : hasSubstr host ("docs.redhat.com".toList) = true)
    (hh : ∀ c ∈ host, c ≠ '/' ∧ c ≠ '#' ∧ c ≠ '?')
    (he1 : e1 ≠ []) (he1d : ∀ c ∈ e1, c.isDigit = true)
    (he2 : e2 ≠ []) (he2d : ∀ c ∈ e2, c.isDigit = true)
    (hfne : fmtSeg ≠ []) (hfc : ∀ c ∈ fmtSeg, c ≠ '/' ∧ c ≠ '#' ∧ c ≠ '?')
    (hdne : docSeg ≠ []) (hdc : ∀ c ∈ docSeg, c ≠ '/' ∧ c ≠ '#' ∧ c ≠ '?')
    (hpne : pageSeg ≠ []) (hpc : ∀ c ∈ pageSeg, c ≠ '/' ∧ c ≠ '#' ∧ c ≠ '?')
    (hvs : validScheme scheme = true)
    (hport : hostPortOK host = true)
    (hhg : ∀ c ∈ host, c ≠ '%' ∧ ctlChar c = false)
    (hfg : ∀ c ∈ fmtSeg, c ≠ '%' ∧ ctlChar c = false)
    (hdg : ∀ c ∈ docSeg, c ≠ '%' ∧ ctlChar c = false)
    (hpg : ∀ c ∈ pageSeg, c ≠ '%' ∧ ctlChar c = false)
    (hag : ∀ c ∈ anchor, c ≠ '%' ∧ ctlChar c = false) :
    ParseOCPDocURL (BuildURL ⟨scheme ++ "://".toList ++ host, ver, mm, fmtSeg, docSeg,
        pageSeg, anchor, orig⟩ (e1 ++ '.' :: e2)) =
      .ok ⟨scheme ++ "://".toList ++ host, e1 ++ '.' :: e2, (atoi e1, atoi e2), fmtSeg,
        docSeg, pageSeg, anchor,
        BuildURL ⟨scheme ++ "://".toList ++ host, ver, mm, fmtSeg, docSeg, pageSeg,
          anchor, orig⟩ (e1 ++ '.' :: e2)⟩ := by
  have hrestAll : ∀ c ∈ ('e' :: 'n' :: (ocpLit ++
      (e1 ++ '.' :: (e2 ++ '/' :: (fmtSeg ++ '/' :: (docSeg ++ '/' :: pageSeg)))))),
      c ≠ '#' ∧ c ≠ '?' := by
    refine List.forall_mem_cons.mpr ⟨by decide, ?_⟩
    refine List.forall_mem_cons.mpr ⟨by decide, ?_⟩
    refine List.forall_mem_append.mpr ⟨by decide, ?_⟩
    refine List.forall_mem_append.mpr ⟨fun c hc =>
      ⟨(digit_ne_special c (he1d c hc)).2.2.1, (digit_ne_special c (he1d c hc)).2.2.2⟩, ?_⟩
    refine List.forall_mem_cons.mpr ⟨by decide, ?_⟩
    refine List.forall_mem_append.mpr ⟨fun c hc =>
      ⟨(digit_ne_special c (he2d c hc)).2.2.1, (digit_ne_special c (he2d c hc)).2.2.2⟩, ?_⟩
    refine List.forall_mem_cons.mpr ⟨by decide, ?_⟩
    refine List.forall_mem_append.mpr ⟨fun c hc => ⟨(hfc c hc).2.1, (hfc c hc).2.2⟩, ?_⟩
    refine List.forall_mem_cons.mpr ⟨by decide, ?_⟩
    refine List.forall_mem_append.mpr ⟨fun c hc => ⟨(hdc c hc).2.1, (hdc c hc).2.2⟩, ?_⟩
    exact List.forall_mem_cons.mpr ⟨by decide, fun c hc => ⟨(hpc c hc).2.1, (hpc c hc).2.2⟩⟩
  have hm : matchVersionTail
      (e1 ++ '.' :: (e2 ++ '/' :: (fmtSeg ++ '/' :: (docSeg ++ '/' :: pageSeg)))) =
      some (e1, e2, fmtSeg, docSeg, pageSeg) := by
    have h0 := matchVersionTail_parts e1 e2 fmtSeg docSeg pageSeg [] he1 he1d he2 he2d
      hfne (fun c hc => notSlash_of_ne c (hfc c hc).1)
      hdne (fun c hc => notSlash_of_ne c (hdc c hc).1)
      hpne (fun c hc => pageChar_of_ne c (hpc c hc).1 (hpc c hc).2.1 (hpc c hc).2.2)
    simpa using h0
  have hfind : findDocPattern ('/' :: 'e' :: 'n' :: (ocpLit ++
      (e1 ++ '.' :: (e2 ++ '/' :: (fmtSeg ++ '/' :: (docSeg ++ '/' :: pageSeg)))))) =
      some (e1, e2, fmtSeg, docSeg, pageSeg) := by
    rw [findDocPattern_cons_of_not _ _ (ocpLit_not_prefix_sl_e _),
      findDocPattern_cons_of_not _ _ (ocpLit_not_prefix_e _),
      findDocPattern_cons_of_not _ _ (ocpLit_not_prefix_n _)]
    exact findDocPattern_here _ _ hm
  obtain ⟨hup1, hup2⟩ := urlParse_shape scheme host
    ('e' :: 'n' :: (ocpLit ++
      (e1 ++ '.' :: (e2 ++ '/' :: (fmtSeg ++ '/' :: (docSeg ++ '/' :: pageSeg))))))
    anchor hs hh hrestAll hvs
  have hgood : ∀ c ∈ scheme ++ ':' :: '/' :: '/' :: (host ++ '/' :: ('e' :: 'n' :: (ocpLit ++
      (e1 ++ '.' :: (e2 ++ '/' :: (fmtSeg ++ '/' :: (docSeg ++ '/' :: pageSeg))))))),
      c ≠ '%' ∧ ctlChar c = false := by
    refine List.forall_mem_append.mpr ⟨scheme_chars_good scheme hvs, ?_⟩
    refine List.forall_mem_cons.mpr ⟨by decide, ?_⟩
    refine List.forall_mem_cons.mpr ⟨by decide, ?_⟩
    refine List.forall_mem_cons.mpr ⟨by decide, ?_⟩
    refine List.forall_mem_append.mpr ⟨hhg, ?_⟩
    refine List.forall_mem_cons.mpr ⟨by decide, ?_⟩
    refine List.forall_mem_cons.mpr ⟨by decide, ?_⟩
    refine List.forall_mem_cons.mpr ⟨by decide, ?_⟩
    refine List.forall_mem_append.mpr ⟨by decide, ?_⟩
    refine List.forall_mem_append.mpr ⟨fun c hc => digit_good c (he1d c hc), ?_⟩
    refine List.forall_mem_cons.mpr ⟨by decide, ?_⟩
    refine List.forall_mem_append.mpr ⟨fun c hc => digit_good c (he2d c hc), ?_⟩
    refine List.forall_mem_cons.mpr ⟨by decide, ?_⟩
    refine List.forall_mem_append.mpr ⟨hfg, ?_⟩
    refine List.forall_mem_cons.mpr ⟨by decide, ?_⟩
    refine List.forall_mem_append.mpr ⟨hdg, ?_⟩
    exact List.forall_mem_cons.mpr ⟨by decide, hpg⟩
  obtain ⟨herr1, herr2⟩ := urlParseErr_none scheme host
    ('e' :: 'n' :: (ocpLit ++
      (e1 ++ '.' :: (e2 ++ '/' :: (fmtSeg ++ '/' :: (docSeg ++ '/' :: pageSeg))))))
    anchor hs hh hrestAll hvs hport hgood hag
  by_cases hanc : anchor = []
  · subst hanc
    have hbuilt : BuildURL ⟨scheme ++ "://".toList ++ host, ver, mm, fmtSeg, docSeg,
        pageSeg, [], orig⟩ (e1 ++ '.' :: e2) =
        scheme ++ ':' :: '/' :: '/' :: (host ++ '/' :: ('e' :: 'n' :: (ocpLit ++
          (e1 ++ '.' :: (e2 ++ '/' :: (fmtSeg ++ '/' :: (docSeg ++ '/' :: pageSeg))))))) := by
      simp [BuildURL, enLit_cons, sep_chars, ocpLit_expand, List.append_assoc]
    rw [hbuilt]
    simp only [ParseOCPDocURL, herr1, hup1]
    rw [if_pos hhdom, hfind]
  · have hancE : anchor.isEmpty = false := isEmpty_false_of_ne_nil anchor hanc
    have hbuilt : BuildURL ⟨scheme ++ "://".toList ++ host, ver, mm, fmtSeg, docSeg,
        pageSeg, anchor, orig⟩ (e1 ++ '.' :: e2) =
        (scheme ++ ':' :: '/' :: '/' :: (host ++ '/' :: ('e' :: 'n' :: (ocpLit ++
          (e1 ++ '.' :: (e2 ++ '/' :: (fmtSeg ++ '/' :: (docSeg ++ '/' :: pageSeg)))))))) ++
          '#' :: anchor := by
      simp [BuildURL, hancE, enLit_cons, sep_chars, ocpLit_expand, List.append_assoc]
    rw [hbuilt]
    simp only [ParseOCPDocURL, herr2, hup2]
    rw [if_pos hhdom, hfind]

/-- Witness for C3 at a concrete well-formed reference and version 4.19. -/
theorem claim_c3_witness :
    (∀ c ∈ ("https".toList : Str), c ≠ ':' ∧ c ≠ '/' ∧ c ≠ '#' ∧ c ≠ '?') ∧
    hasSubstr ("docs.redhat.com".toList) ("docs.redhat.com".toList) = true ∧
    ParseOCPDocURL (BuildURL ⟨"https".toList ++ "://".toList ++ "docs.redhat.com".toList,
        "4.17".toList, (4, 17), "html-single".toList, "disconnected_environments".toList,
        "index".toList, "mirroring-image-set-full".toList, "x".toList⟩
        ("4".toList ++ '.' :: "19".toList)) =
      .ok ⟨"https".toList ++ "://".toList ++ "docs.redhat.com".toList,
        "4".toList ++ '.' :: "19".toList, (atoi ("4".toList), atoi ("19".toList)),
        "html-single".toList, "disconnected_environments".toList, "index".toList,
        "mirroring-image-set-full".toList,
        BuildURL ⟨"https".toList ++ "://".toList ++ "docs.redhat.com".toList,
          "4.17".toList, (4, 17), "html-single".toList, "disconnected_environments".toList,
          "index".toList, "mirroring-image-set-full".toList, "x".toList⟩
          ("4".toList ++ '.' :: "19".toList)⟩ :=
  ⟨by decide, by decide,
    claim_c3 ("https".toList) ("docs.redhat.com".toList) ("html-single".toList)
      ("disconnected_environments".toList) ("index".toList)
      ("mirroring-image-set-full".toList) ("4.17".toList) (4, 17) ("x".toList)
      ("4".toList) ("19".toList) (by decide) (by decide) (by decide) (by decide) (by decide)
      (by decide) (by decide) (by decide) (by decide) (by decide) (by decide) (by decide)
      (by decide) (by decide) (by decide) (by decide) (by decide) (by decide) (by decide)
      (by decide)⟩
